import Mathlib

/- Verification of the Mach-O code-signature parser (`src/codedir.rs`) against its
specification.  The Rust code is shallowly embedded: byte buffers are `List Nat`
(each element a byte value), `std::io::Cursor` is a buffer plus a position,
fallible operations return an `Outcome` that distinguishes `Ok`, recoverable
`Err(CDMachError)`, and Rust panics (`unimplemented!`, slice-bound or arithmetic
overflow in debug profile).  The cryptographic digests come from the external
`ring` crate, so digest functions are taken as parameters of the embedded
operations; every theorem quantifies over them. -/

namespace Codesig

/-- The error enum of `src/errors.rs` (`CDMachError`).  `ioError` stands for the
wrapped `std::io::Error` produced by short reads. -/
inductive CDMachError where
  | utf8Error
  | ioError
  | teamIDNotSupportedVersion (v : Nat)
  | noTeamId
  | noIdentifier
  | noCodeDirectory
deriving DecidableEq

/-- Result of running a piece of Rust code: `ok`, a recoverable `Err` value, or a
panic (from `unimplemented!()`, an out-of-range slice index, or a debug-profile
arithmetic overflow). -/
inductive Outcome (α : Type) where
  | ok (a : α)
  | err (e : CDMachError)
  | panicked
deriving DecidableEq

instance : Monad Outcome where
  pure := Outcome.ok
  bind := fun x f =>
    match x with
    | .ok a => f a
    | .err e => .err e
    | .panicked => .panicked

/-- `std::io::Cursor` over an in-memory byte buffer. -/
structure Cursor where
  data : List Nat
  pos : Nat
deriving DecidableEq

/-- Big-endian (network order) value of a byte list. -/
def beVal (bs : List Nat) : Nat := bs.foldl (fun acc b => acc * 256 + b) 0

/-- `Read::read_exact` into a buffer of `n` bytes: succeeds iff `n` bytes are
available from the current position. -/
def readExact (n : Nat) (c : Cursor) : Outcome (List Nat × Cursor) :=
  if c.pos + n ≤ c.data.length then .ok ((c.data.drop c.pos).take n, ⟨c.data, c.pos + n⟩)
  else .err .ioError

/-- `read_u32::<NetworkEndian>` keeping the failure cursor: a short read consumes
the remaining bytes (the default `read_exact` loop) and yields `none`. -/
def tryReadU32 (c : Cursor) : Option Nat × Cursor :=
  if c.pos + 4 ≤ c.data.length then
    (some (beVal ((c.data.drop c.pos).take 4)), ⟨c.data, c.pos + 4⟩)
  else (none, ⟨c.data, max c.pos c.data.length⟩)

/-- `buf.read_u32::<NetworkEndian>()?` -/
def readU32 (c : Cursor) : Outcome (Nat × Cursor) :=
  match tryReadU32 c with
  | (some v, c') => .ok (v, c')
  | (none, _) => .err .ioError

/-- `buf.read_u8()?` -/
def readU8 (c : Cursor) : Outcome (Nat × Cursor) :=
  if c.pos + 1 ≤ c.data.length then .ok (c.data.getD c.pos 0, ⟨c.data, c.pos + 1⟩)
  else .err .ioError

/-- a version-gated field read: `if version >= threshold { buf.read_u32()? } else { 0 }` -/
def readU32If (p : Prop) [Decidable p] (c : Cursor) : Outcome (Nat × Cursor) :=
  if p then readU32 c else pure (0, c)

/-- one lowercase hex digit, as produced by `hex::encode` -/
def hexDigit (n : Nat) : Char := if n < 10 then Char.ofNat (48 + n) else Char.ofNat (87 + n)

/-- `hex::encode`: two lowercase hex digits per byte. -/
def hexEncode (bs : List Nat) : String :=
  String.mk (bs.foldr (fun b acc => hexDigit (b / 16) :: hexDigit (b % 16) :: acc) [])

/- Constants from `src/consts.rs` and `src/codedir.rs`. -/

def CS_HASHTYPE_SHA1 : Nat := 1
def CS_HASHTYPE_SHA256 : Nat := 2
def CS_HASHTYPE_SHA256_TRUNCATED : Nat := 3
def CSMAGIC_EMBEDDED_SIGNATURE : Nat := 0xfade0cc0
def CSMAGIC_CODEDIRECTORY : Nat := 0xfade0c02
/-- earliest supported version -/
def earliestVersion : Nat := 0x20001
/-- first version to support scatter option -/
def supportsScatter : Nat := 0x20100
/-- first version to support team ID option -/
def supportsTeamID : Nat := 0x20200
/-- first version to support codeLimit64 -/
def supportsCodeLimit64 : Nat := 0x20300
/-- first version to support exec base and limit -/
def supportsExecSegment : Nat := 0x20400
/-- "version 3 with wiggle room" -/
def compatibilityLimit : Nat := 0x2F000

/-- an index entry of a SuperBlob -/
structure BlobIndex where
  typ : Nat
  offset : Nat
deriving DecidableEq

/-- the signature envelope header plus its index table -/
structure SuperBlob where
  magic : Nat
  length : Nat
  count : Nat
  index : List (Option BlobIndex)
deriving DecidableEq

/-- the CodeDirectory header of `src/codedir.rs` (u32/u8/u64 fields as `Nat`) -/
structure CodeDirectory where
  magic : Nat
  length : Nat
  version : Nat
  flags : Nat
  hashOffset : Nat
  identOffset : Nat
  nSpecialSlots : Nat
  nCodeSlots : Nat
  codeLimit : Nat
  hashSize : Nat
  hashType : Nat
  platform : Nat
  pageSize : Nat
  spare2 : Nat
  scatterOffset : Nat
  teamIDOffset : Nat
  spare3 : Nat
  codeLimit64 : Nat
  execSegBase : Nat
  execSegLimit : Nat
  execSegFlags : Nat
deriving DecidableEq

/-- `n as i32` on a `u32` value -/
def toI32 (n : Nat) : Int := if n < 2 ^ 31 then (n : Int) else (n : Int) - 2 ^ 32

/-- the Rust half-open range `a..b` over `i32`, as a list of its elements -/
def i32range (a b : Int) : List Int :=
  (List.range (b - a).toNat).map (fun (k : Nat) => a + (k : Int))

/-- The index-reading loop of `SuperBlob::parse`: for each of `n` entries read two
big-endian u32s; a pair that cannot be read is recorded as `none` (the `Err` arms
push `None`), never a failure. -/
def readIndex : Nat → Cursor → List (Option BlobIndex) × Cursor
  | 0, c => ([], c)
  | n + 1, c =>
    let r1 := tryReadU32 c
    let r2 := tryReadU32 r1.2
    let entry : Option BlobIndex :=
      match r1.1, r2.1 with
      | some typ, some off => some ⟨typ, off⟩
      | _, _ => none
    let rest := readIndex n r2.2
    (entry :: rest.1, rest.2)

/-- `SuperBlob::parse::<NetworkEndian>`: read `magic`, `length`, `count` (each
failing with an I/O error on a short read), then `count` index entries via the
non-failing loop. -/
def SuperBlob.parse (c : Cursor) : Outcome (SuperBlob × Cursor) := do
  let (magic, c) ← readU32 c
  let (length, c) ← readU32 c
  let (count, c) ← readU32 c
  let idx := readIndex count c
  pure (⟨magic, length, count, idx.1⟩, idx.2)

/-- `CodeDirectory::parse::<NetworkEndian>`: the mandatory prefix through
`spare2`, then `scatterOffset` iff `version >= supportsScatter` and
`teamIDOffset` iff `version >= supportsTeamID`; every remaining field is left at
its `Default` value, zero (the `..Default::default()` in the struct literal). -/
def CodeDirectory.parse (c : Cursor) : Outcome (CodeDirectory × Cursor) := do
  let (magic, c) ← readU32 c
  let (length, c) ← readU32 c
  let (version, c) ← readU32 c
  let (flags, c) ← readU32 c
  let (hashOffset, c) ← readU32 c
  let (identOffset, c) ← readU32 c
  let (nSpecialSlots, c) ← readU32 c
  let (nCodeSlots, c) ← readU32 c
  let (codeLimit, c) ← readU32 c
  let (hashSize, c) ← readU8 c
  let (hashType, c) ← readU8 c
  let (platform, c) ← readU8 c
  let (pageSize, c) ← readU8 c
  let (spare2, c) ← readU32 c
  let (scatterOffset, c) ← readU32If (supportsScatter ≤ version) c
  let (teamIDOffset, c) ← readU32If (supportsTeamID ≤ version) c
  pure (⟨magic, length, version, flags, hashOffset, identOffset, nSpecialSlots, nCodeSlots,
    codeLimit, hashSize, hashType, platform, pageSize, spare2, scatterOffset, teamIDOffset,
    0, 0, 0, 0, 0⟩, c)

/-- `CodeDirectory::hash_type_str`: the match on `hashType as u32` has arms only
for `CS_HASHTYPE_SHA1` and `CS_HASHTYPE_SHA256`; everything else hits
`unimplemented!()`, a panic. -/
def CodeDirectory.hash_type_str (cd : CodeDirectory) : Outcome String :=
  if cd.hashType = CS_HASHTYPE_SHA1 then .ok ("SHA-1")
  else if cd.hashType = CS_HASHTYPE_SHA256 then .ok ("SHA-256")
  else .panicked

/-- The per-slot read loop of `CodeDirectory::cd_hashes`: for each index in turn,
`read_exact` `hashSize` bytes and hex-encode them; the `collect` over `Result`
stops at the first failing read. -/
def readSlots (hashSize : Nat) : List Int → Cursor → Outcome (List (Int × String) × Cursor)
  | [], c => .ok ([], c)
  | i :: rest, c => do
    let (hash_buf, c) ← readExact hashSize c
    let (tl, c) ← readSlots hashSize rest c
    pure ((i, hexEncode hash_buf) :: tl, c)

/-- `CodeDirectory::cd_hashes`: read one stored hash per logical slot index in
`-(nSpecialSlots as i32) .. nCodeSlots as i32`, sequentially from the cursor. -/
def CodeDirectory.cd_hashes (cd : CodeDirectory) (c : Cursor) :
    Outcome (List (Int × String) × Cursor) :=
  readSlots cd.hashSize (i32range (-(toI32 cd.nSpecialSlots)) (toI32 cd.nCodeSlots)) c

/-- The stored-hash extraction step of `CodeSignature::parse`: position the
cursor at `base + hashOffset - hashSize * nSpecialSlots` (u32 arithmetic whose
underflow panics in the debug profile) and collect the slot table, where `base`
is `offset + bi.offset`, the absolute start of the CodeDirectory blob. -/
def stored_hashes (cd : CodeDirectory) (base : Nat) (c : Cursor) :
    Outcome (List (Int × String) × Cursor) :=
  if cd.hashSize * cd.nSpecialSlots ≤ base + cd.hashOffset then
    CodeDirectory.cd_hashes cd ⟨c.data, base + cd.hashOffset - cd.hashSize * cd.nSpecialSlots⟩
  else .panicked

/-- The page-size computation inside the loop of `computed_cd_hashes`:
`sz = if position + page_size > codeLimit { codeLimit - position } else
{ page_size }`, where the u64 subtraction panics on underflow in the debug
profile. -/
def pageSz (codeLimit page_size : Nat) (c : Cursor) : Outcome Nat :=
  if c.pos + page_size > codeLimit then
    (if c.pos ≤ codeLimit then Outcome.ok (codeLimit - c.pos) else Outcome.panicked)
  else Outcome.ok page_size

/-- The digest-type selection
`match hashType { CS_HASHTYPE_SHA1 => SHA1, CS_HASHTYPE_SHA256 => SHA256,
_ => unimplemented!() }`; the wildcard arm panics. -/
def selectDigest (sha1 sha256 : List Nat → List Nat) (hashType : Nat) :
    Outcome (List Nat → List Nat) :=
  if hashType = CS_HASHTYPE_SHA1 then Outcome.ok sha1
  else if hashType = CS_HASHTYPE_SHA256 then Outcome.ok sha256
  else Outcome.panicked

/-- The page loop of `CodeDirectory::computed_cd_hashes`: for each slot index,
compute the page size (truncated on the final partial page), `read_exact` it,
and digest with the function selected by `hashType`. -/
def computedLoop (sha1 sha256 : List Nat → List Nat) (hashType codeLimit page_size : Nat) :
    List Int → Cursor → Outcome (List (Int × String) × Cursor)
  | [], c => .ok ([], c)
  | i :: rest, c => do
    let sz ← pageSz codeLimit page_size c
    let (hash_buf, c) ← readExact sz c
    let hf ← selectDigest sha1 sha256 hashType
    let (tl, c) ← computedLoop sha1 sha256 hashType codeLimit page_size rest c
    pure ((i, hexEncode (hf hash_buf)) :: tl, c)

/-- `CodeDirectory::computed_cd_hashes`: rewind the cursor to position 0, let
`page_size = 1 << pageSize` (a u64 shift, which overflows — panics in the debug
profile — for `pageSize >= 64`), and hash one page per code slot. -/
def CodeDirectory.computed_cd_hashes (sha1 sha256 : List Nat → List Nat)
    (cd : CodeDirectory) (c : Cursor) : Outcome (List (Int × String) × Cursor) :=
  if 64 ≤ cd.pageSize then .panicked
  else
    computedLoop sha1 sha256 cd.hashType cd.codeLimit (2 ^ cd.pageSize)
      (i32range 0 (toI32 cd.nCodeSlots)) ⟨c.data, 0⟩

/-- `CodeDirectory::compute_cd_hash`: `read_exact` `self.length` bytes from the
cursor's current position, digest them with the function selected by `hashType`
(`unimplemented!()`, a panic, otherwise), and hex-encode the digest. -/
def CodeDirectory.compute_cd_hash (sha1 sha256 : List Nat → List Nat)
    (cd : CodeDirectory) (c : Cursor) : Outcome (Option String × Cursor) := do
  let (hash_buf, c) ← readExact cd.length c
  let hf ← selectDigest sha1 sha256 cd.hashType
  pure (some (hexEncode (hf hash_buf)), c)

/-- `BufRead::read_until(0x00, ...)` from the current position: the bytes up to
and including the first NUL, or all remaining bytes when no NUL occurs. -/
def takeToNul : List Nat → List Nat
  | [] => []
  | b :: bs => if b = 0 then [0] else b :: takeToNul bs

/-- continuation byte 0x80..0xBF -/
def utf8Cont (b : Nat) : Bool := 0x80 ≤ b && b ≤ 0xBF

/-- validity of a byte list as UTF-8, as checked by Rust's `str::from_utf8` -/
def utf8Valid : List Nat → Bool
  | [] => true
  | b :: bs =>
    if b ≤ 0x7F then utf8Valid bs
    else if 0xC2 ≤ b && b ≤ 0xDF then
      match bs with
      | b1 :: bs1 => utf8Cont b1 && utf8Valid bs1
      | [] => false
    else if b = 0xE0 then
      match bs with
      | b1 :: b2 :: bs2 => (0xA0 ≤ b1 && b1 ≤ 0xBF) && utf8Cont b2 && utf8Valid bs2
      | _ => false
    else if (0xE1 ≤ b && b ≤ 0xEC) || b = 0xEE || b = 0xEF then
      match bs with
      | b1 :: b2 :: bs2 => utf8Cont b1 && utf8Cont b2 && utf8Valid bs2
      | _ => false
    else if b = 0xED then
      match bs with
      | b1 :: b2 :: bs2 => (0x80 ≤ b1 && b1 ≤ 0x9F) && utf8Cont b2 && utf8Valid bs2
      | _ => false
    else if b = 0xF0 then
      match bs with
      | b1 :: b2 :: b3 :: bs3 =>
        (0x90 ≤ b1 && b1 ≤ 0xBF) && utf8Cont b2 && utf8Cont b3 && utf8Valid bs3
      | _ => false
    else if 0xF1 ≤ b && b ≤ 0xF3 then
      match bs with
      | b1 :: b2 :: b3 :: bs3 => utf8Cont b1 && utf8Cont b2 && utf8Cont b3 && utf8Valid bs3
      | _ => false
    else if b = 0xF4 then
      match bs with
      | b1 :: b2 :: b3 :: bs3 =>
        (0x80 ≤ b1 && b1 ≤ 0x8F) && utf8Cont b2 && utf8Cont b3 && utf8Valid bs3
      | _ => false
    else false

/-- `read_string_to_nul`: `read_until(0x00)` into `ident`, then slice
`ident[0 .. sz - 1]` and decode as UTF-8.  When zero bytes were read the `sz - 1`
bound underflows and the slice indexing panics; invalid UTF-8 is a recoverable
error.  The string result is represented by its byte list. -/
def read_string_to_nul (c : Cursor) : Outcome (List Nat × Cursor) :=
  let ident := takeToNul (c.data.drop c.pos)
  let sz := ident.length
  if sz = 0 then .panicked
  else if utf8Valid (ident.take (sz - 1)) then .ok (ident.take (sz - 1), ⟨c.data, c.pos + sz⟩)
  else .err .utf8Error

/-- The identifier-extraction step of `CodeSignature::parse`: set the cursor to
the absolute position `offset + bi.offset + identOffset` and read a
NUL-terminated string.  The `Result` is captured as a field of the blob entry
(`let identifier = read_string_to_nul(buf);` without `?`), so a recoverable
error becomes a stored value, while a panic propagates and aborts the parse. -/
def identifier_entry (offset bOff idOff : Nat) (c : Cursor) : Outcome (Outcome (List Nat)) :=
  match read_string_to_nul ⟨c.data, offset + bOff + idOff⟩ with
  | .ok (s, _) => .ok (.ok s)
  | .err e => .ok (.err e)
  | .panicked => .panicked

/-- the identity digest, used to instantiate the digest parameters in concrete
witnesses and counterexamples -/
def hid : List Nat → List Nat := fun bs => bs

/-- a CodeDirectory whose fields are all zero except `hashType` -/
def mkCDht (t : Nat) : CodeDirectory :=
  ⟨0, 0, 0, 0, 0, 0, 0, 0, 0, 0, t, 0, 0, 0, 0, 0, 0, 0, 0, 0, 0⟩

/-- a 44-byte CodeDirectory blob whose version field (bytes 8..11) is 0x10000,
below `earliestVersion`; every other byte is zero -/
def c4data : List Nat := List.replicate 8 0 ++ [0, 1, 0, 0] ++ List.replicate 32 0

/-- the CodeDirectory that parsing `c4data` yields -/
def c4cd : CodeDirectory := ⟨0, 0, 0x10000, 0, 0, 0, 0, 0, 0, 0, 0, 0, 0, 0, 0, 0, 0, 0, 0, 0, 0⟩

/-- a 76-byte CodeDirectory blob with version 0x20400: a 52-byte header region
(through `teamIDOffset`) of zeros apart from the version field, followed by 24
bytes of 0xFF where `spare3`, `codeLimit64` and the exec-segment triplet would
be encoded -/
def c5data : List Nat :=
  List.replicate 8 0 ++ [0, 2, 4, 0] ++ List.replicate 40 0 ++ List.replicate 24 255

/-- the CodeDirectory that parsing `c5data` yields -/
def c5cd : CodeDirectory := ⟨0, 0, 0x20400, 0, 0, 0, 0, 0, 0, 0, 0, 0, 0, 0, 0, 0, 0, 0, 0, 0, 0⟩

/-- a CodeDirectory with nonzero `codeLimit64 = 100`, `codeLimit = 2`,
`pageSize = 2` (P = 4), one code slot, SHA-1 hash type -/
def cd6 : CodeDirectory := ⟨0, 0, 0, 0, 0, 0, 0, 1, 2, 0, 1, 0, 2, 0, 0, 0, 0, 100, 0, 0, 0⟩

/-- a CodeDirectory with `pageSize = 0`, `codeLimit = 2`, one code slot, SHA-1 -/
def cd7 : CodeDirectory := ⟨0, 0, 0, 0, 0, 0, 0, 1, 2, 0, 1, 0, 0, 0, 0, 0, 0, 0, 0, 0, 0⟩

/-- a 12-byte SuperBlob header (magic 0xfade0cc0, length 20, count 2) with no
index-entry bytes at all -/
def c8data : List Nat := [0xfa, 0xde, 0x0c, 0xc0, 0, 0, 0, 20, 0, 0, 0, 2]

/-- CodeDirectory for the C1 witness: `length = 2`, SHA-1 hash type -/
def cd1w : CodeDirectory := ⟨0, 2, 0, 0, 0, 0, 0, 0, 0, 0, 1, 0, 0, 0, 0, 0, 0, 0, 0, 0, 0⟩

/-- CodeDirectory for the C2 witness: `pageSize = 1` (P = 2), `codeLimit = 3`,
`nCodeSlots = 2 = ⌈3/2⌉`, SHA-1 hash type, `codeLimit64 = 0` -/
def cd2w : CodeDirectory := ⟨0, 0, 0, 0, 0, 0, 0, 2, 3, 0, 1, 0, 1, 0, 0, 0, 0, 0, 0, 0, 0⟩

/-- CodeDirectory for the C3 witness: `hashOffset = 2`, `nSpecialSlots = 2`,
`nCodeSlots = 1`, `hashSize = 1` -/
def cd3w : CodeDirectory := ⟨0, 0, 0, 0, 2, 0, 2, 1, 0, 1, 0, 0, 0, 0, 0, 0, 0, 0, 0, 0, 0⟩

/- ------------------------------------------------------------------ -/
/- Helper lemmas -/
/- ------------------------------------------------------------------ -/

theorem outcome_bind_def {α β : Type} (x : Outcome α) (f : α → Outcome β) :
    x >>= f = match x with
      | .ok a => f a
      | .err e => .err e
      | .panicked => .panicked := rfl

theorem outcome_pure_def {α : Type} (a : α) : (pure a : Outcome α) = .ok a := rfl

theorem bind_ok_inv {α β : Type} {x : Outcome α} {f : α → Outcome β} {b : β}
    (h : x >>= f = .ok b) : ∃ a, x = .ok a ∧ f a = .ok b := by
  cases x with
  | ok a => exact ⟨a, rfl, h⟩
  | err e => simp [outcome_bind_def] at h
  | panicked => simp [outcome_bind_def] at h

theorem readU32_ok {c : Cursor} {v : Nat} {c' : Cursor} (h : readU32 c = .ok (v, c')) :
    c' = ⟨c.data, c.pos + 4⟩ := by
  by_cases hc : c.pos + 4 ≤ c.data.length
  · simp only [readU32, tryReadU32, if_pos hc] at h
    cases h; rfl
  · simp [readU32, tryReadU32, hc] at h

theorem readU8_ok {c : Cursor} {v : Nat} {c' : Cursor} (h : readU8 c = .ok (v, c')) :
    c' = ⟨c.data, c.pos + 1⟩ := by
  by_cases hc : c.pos + 1 ≤ c.data.length
  · simp only [readU8, if_pos hc] at h
    cases h; rfl
  · simp [readU8, hc] at h

theorem condRead_ok {p : Prop} [Decidable p] {c : Cursor} {v : Nat} {c' : Cursor}
    (h : readU32If p c = .ok (v, c')) :
    c'.data = c.data ∧ c.pos ≤ c'.pos ∧ c'.pos ≤ c.pos + 4 := by
  unfold readU32If at h
  split at h
  · obtain rfl := readU32_ok h
    exact ⟨rfl, by simp, by simp⟩
  · rw [outcome_pure_def] at h
    cases h
    exact ⟨rfl, le_refl _, by omega⟩

theorem i32range_zero_m (a : Int) : i32range a (a + ((0 : Nat) : Int)) = [] := by
  simp [i32range]

theorem i32range_succ_m (a : Int) (m : Nat) :
    i32range a (a + ((m + 1 : Nat) : Int)) = a :: i32range (a + 1) ((a + 1) + (m : Int)) := by
  unfold i32range
  have h1 : (a + ((m + 1 : Nat) : Int) - a).toNat = m + 1 := by push_cast; omega
  have h2 : ((a + 1) + (m : Int) - (a + 1)).toNat = m := by omega
  rw [h1, h2, List.range_succ_eq_map, List.map_cons, List.map_map]
  congr 1
  · simp
  · apply List.map_congr_left
    intro k _
    simp only [Function.comp_apply]
    push_cast
    ring

/-- Unfolding of the sequential slot-read loop: reading `m` slots of `hashSize`
bytes each, for the index range `a .. a + m`, from a position with `m * hashSize`
readable bytes, yields slot `a + j` paired with the bytes at offset
`pos + j * hashSize`. -/
theorem readSlots_range (hs : Nat) (m : Nat) : ∀ (a : Int) (c : Cursor),
    c.pos + m * hs ≤ c.data.length →
    readSlots hs (i32range a (a + (m : Int))) c =
      .ok (((List.range m).map fun (j : Nat) =>
          (a + (j : Int), hexEncode ((c.data.drop (c.pos + j * hs)).take hs))),
        ⟨c.data, c.pos + m * hs⟩) := by
  induction m with
  | zero =>
    intro a c _
    obtain ⟨data, pos⟩ := c
    rw [i32range_zero_m]
    simp [readSlots]
  | succ m ih =>
    intro a c h
    obtain ⟨data, pos⟩ := c
    simp only at h
    rw [Nat.succ_mul] at h
    have hx : pos + hs ≤ data.length := by
      generalize hq : m * hs = q at h
      omega
    have h' : pos + hs + m * hs ≤ data.length := by
      generalize hq : m * hs = q at h ⊢
      omega
    rw [i32range_succ_m]
    simp only [readSlots, readExact, if_pos hx, outcome_bind_def]
    rw [ih (a + 1) ⟨data, pos + hs⟩ h']
    simp only [outcome_pure_def]
    have hlist : (List.range (m + 1)).map
          (fun (j : Nat) => (a + (j : Int), hexEncode ((data.drop (pos + j * hs)).take hs)))
        = (a + ((0 : Nat) : Int), hexEncode ((data.drop (pos + 0 * hs)).take hs))
          :: (List.range m).map (fun (j : Nat) =>
            ((a + 1) + (j : Int), hexEncode ((data.drop ((pos + hs) + j * hs)).take hs))) := by
      rw [List.range_succ_eq_map, List.map_cons, List.map_map]
      congr 1
      apply List.map_congr_left
      intro j _
      simp only [Function.comp_apply, Prod.mk.injEq]
      constructor
      · push_cast; ring
      · have harith : pos + hs + j * hs = pos + (j + 1) * hs := by ring
        rw [harith]
    rw [hlist]
    have hc : pos + (m + 1) * hs = pos + hs + m * hs := by ring
    rw [hc]
    simp

/-- slot index below the page count `⌈L / P⌉` starts strictly inside `[0, L)` -/
theorem slot_mul_lt (P L k n : Nat) (hP : 0 < P) (hn : n = (L + P - 1) / P)
    (hk : k < n) : k * P < L := by
  rcases Nat.eq_zero_or_pos L with hL | hL
  · subst hL
    have hz : n = 0 := by rw [hn]; exact Nat.div_eq_of_lt (by omega)
    omega
  · have h2 : n * P ≤ L + P - 1 := by rw [hn]; exact Nat.div_mul_le_self _ _
    have h3 : (k + 1) * P ≤ n * P := mul_le_mul_right' (by omega) P
    rw [Nat.succ_mul] at h3
    generalize hq : k * P = q at h3 ⊢
    generalize hr : n * P = r at h2 h3
    omega

/-- Unfolding of the per-page digest loop of `computed_cd_hashes`: with
`n = ⌈L / P⌉` pages in total and `m` pages remaining from page `k` (cursor at
`k * P`), each remaining page `k + j` hashes the window
`[(k+j)·P, min((k+j+1)·P, L))` of the buffer. -/
theorem computedLoop_range (sha1 sha256 hf : List Nat → List Nat) (ht L P : Nat)
    (hsel : selectDigest sha1 sha256 ht = Outcome.ok hf)
    (hP : 0 < P) (n : Nat) (hn : n = (L + P - 1) / P) (m : Nat) :
    ∀ (k : Nat) (c : Cursor), k + m = n → (0 < m → c.pos = k * P) → L ≤ c.data.length →
    ∃ c', computedLoop sha1 sha256 ht L P (i32range (k : Int) ((k : Int) + (m : Int))) c =
      .ok (((List.range m).map fun (j : Nat) =>
        (((k : Int) + (j : Int)),
         hexEncode (hf (((c.data.take L).drop ((k + j) * P)).take P)))), c') := by
  induction m with
  | zero =>
    intro k c _ _ _
    rw [i32range_zero_m]
    exact ⟨c, by simp [computedLoop]⟩
  | succ m ih =>
    intro k c hkm hpos hlen
    have hpos0 : c.pos = k * P := hpos (Nat.succ_pos m)
    obtain ⟨data, pos⟩ := c
    simp only at hpos0 hlen
    subst hpos0
    have hkn : k < n := by omega
    have hkP : k * P < L := slot_mul_lt P L k n hP hn hkn
    have hszeq : pageSz L P ⟨data, k * P⟩ = Outcome.ok (min P (L - k * P)) := by
      unfold pageSz
      simp only
      by_cases hbig : k * P + P > L
      · rw [if_pos hbig, if_pos (le_of_lt hkP)]
        congr 1
        generalize hq : k * P = q at hbig hkP ⊢
        omega
      · rw [if_neg hbig]
        congr 1
        generalize hq : k * P = q at hbig hkP ⊢
        omega
    have hrd : k * P + min P (L - k * P) ≤ data.length := by
      generalize hq : k * P = q at hkP ⊢
      omega
    have hwin : ((data.take L).drop (k * P)).take P
        = (data.drop (k * P)).take (min P (L - k * P)) := by
      rw [List.drop_take, List.take_take]
    have hposs : 0 < m → (Cursor.mk data (k * P + min P (L - k * P))).pos = (k + 1) * P := by
      intro hm
      have h2 := slot_mul_lt P L (k + 1) n hP hn (by omega)
      rw [Nat.succ_mul] at h2 ⊢
      simp only
      generalize hq : k * P = q at h2 ⊢
      omega
    have hcast : (k : Int) + 1 = ((k + 1 : Nat) : Int) := by push_cast; ring
    obtain ⟨c'', hrec⟩ := ih (k + 1) ⟨data, k * P + min P (L - k * P)⟩ (by omega) hposs hlen
    refine ⟨c'', ?_⟩
    rw [i32range_succ_m]
    simp only [computedLoop, hszeq, outcome_bind_def, readExact, if_pos hrd, hsel, hcast,
      hrec, outcome_pure_def]
    rw [← hwin]
    have hlist : (List.range (m + 1)).map (fun (j : Nat) =>
          ((k : Int) + (j : Int), hexEncode (hf (((data.take L).drop ((k + j) * P)).take P))))
        = ((k : Int) + ((0 : Nat) : Int),
            hexEncode (hf (((data.take L).drop ((k + 0) * P)).take P)))
          :: (List.range m).map (fun (j : Nat) =>
            (((k + 1 : Nat) : Int) + (j : Int),
             hexEncode (hf (((data.take L).drop ((k + 1 + j) * P)).take P)))) := by
      rw [List.range_succ_eq_map, List.map_cons, List.map_map]
      congr 1
      apply List.map_congr_left
      intro j _
      simp only [Function.comp_apply, Prod.mk.injEq]
      constructor
      · push_cast; ring
      · have harith : (k + (j + 1)) * P = (k + 1 + j) * P := by ring
        rw [harith]
    rw [hlist]
    simp

/-- Closed form of the index-reading loop: entry `k` is present iff its eight
bytes `[pos + 8k, pos + 8k + 8)` lie inside the buffer, and holds the two
big-endian u32s read there; the final position is `min (pos + 8n) length`
(a failed read consumes the remaining bytes). -/
theorem readIndex_spec (n : Nat) : ∀ (c : Cursor), c.pos ≤ c.data.length →
    readIndex n c =
      ((List.range n).map fun (k : Nat) =>
        if c.pos + 8 * (k + 1) ≤ c.data.length then
          some ⟨beVal ((c.data.drop (c.pos + 8 * k)).take 4),
                beVal ((c.data.drop (c.pos + 8 * k + 4)).take 4)⟩
        else none,
      ⟨c.data, min (c.pos + 8 * n) c.data.length⟩) := by
  induction n with
  | zero =>
    intro c hpos
    obtain ⟨data, pos⟩ := c
    simp only at hpos
    simp only [readIndex, List.range_zero, List.map_nil]
    have hmin : min (pos + 8 * 0) data.length = pos := by omega
    rw [hmin]
  | succ n ih =>
    intro c hpos
    obtain ⟨data, pos⟩ := c
    simp only at hpos
    by_cases h8 : pos + 8 ≤ data.length
    · have h4 : pos + 4 ≤ data.length := by omega
      have h44 : pos + 4 + 4 ≤ data.length := by omega
      simp only [readIndex, tryReadU32, if_pos h4, if_pos h44]
      have e : pos + 4 + 4 = pos + 8 := by omega
      rw [e, ih ⟨data, pos + 8⟩ (by simp; omega)]
      simp only
      rw [List.range_succ_eq_map, List.map_cons, List.map_map]
      have hhead : (if pos + 8 * (0 + 1) ≤ data.length then
            some (BlobIndex.mk (beVal ((data.drop (pos + 8 * 0)).take 4))
              (beVal ((data.drop (pos + 8 * 0 + 4)).take 4)))
          else none)
          = some (BlobIndex.mk (beVal ((data.drop pos).take 4))
              (beVal ((data.drop (pos + 4)).take 4))) := by
        rw [if_pos (by omega)]
        have e0 : pos + 8 * 0 = pos := by omega
        rw [e0]
      rw [hhead]
      have htail : (List.range n).map (fun (k : Nat) =>
            if pos + 8 + 8 * (k + 1) ≤ data.length then
              some (BlobIndex.mk (beVal ((data.drop (pos + 8 + 8 * k)).take 4))
                (beVal ((data.drop (pos + 8 + 8 * k + 4)).take 4)))
            else none)
          = (List.range n).map ((fun (k : Nat) =>
            if pos + 8 * (k + 1) ≤ data.length then
              some (BlobIndex.mk (beVal ((data.drop (pos + 8 * k)).take 4))
                (beVal ((data.drop (pos + 8 * k + 4)).take 4)))
            else none) ∘ Nat.succ) := by
        apply List.map_congr_left
        intro k _
        simp only [Function.comp_apply]
        have e1 : pos + 8 + 8 * (k + 1) = pos + 8 * (k + 1 + 1) := by ring
        have e2 : pos + 8 + 8 * k = pos + 8 * (k + 1) := by ring
        rw [e1, e2]
      rw [htail]
      have ecur : pos + 8 + 8 * n = pos + 8 * (n + 1) := by ring
      rw [ecur]
    · have hall : ∀ (q : Nat), readIndex n ⟨data, data.length⟩
          = ((List.range n).map fun (_ : Nat) => (none : Option BlobIndex),
            (⟨data, data.length⟩ : Cursor)) := by
        intro _
        rw [ih ⟨data, data.length⟩ (by simp)]
        simp only
        have hm : min (data.length + 8 * n) data.length = data.length := by omega
        rw [hm]
        refine congrArg (fun l => (l, (⟨data, data.length⟩ : Cursor))) ?_
        apply List.map_congr_left
        intro k _
        rw [if_neg (by omega)]
      have hgoal : ((List.range (n + 1)).map fun (k : Nat) =>
            if pos + 8 * (k + 1) ≤ data.length then
              some (BlobIndex.mk (beVal ((data.drop (pos + 8 * k)).take 4))
                (beVal ((data.drop (pos + 8 * k + 4)).take 4)))
            else none)
          = (List.range (n + 1)).map fun (_ : Nat) => (none : Option BlobIndex) := by
        apply List.map_congr_left
        intro k _
        rw [if_neg (by omega)]
      by_cases h4 : pos + 4 ≤ data.length
      · have hneg : ¬ (pos + 4 + 4 ≤ data.length) := by omega
        simp only [readIndex, tryReadU32, if_pos h4, if_neg hneg]
        have hmax : max (pos + 4) data.length = data.length := by omega
        rw [hmax, hall 0, hgoal]
        simp only [List.range_succ_eq_map, List.map_cons, List.map_map]
        have hm2 : min (pos + 8 * (n + 1)) data.length = data.length := by omega
        rw [hm2]
        rfl
      · simp only [readIndex, tryReadU32, if_neg h4]
        have hmax : max pos data.length = data.length := by omega
        rw [hmax]
        have hneg2 : ¬ (data.length + 4 ≤ data.length) := by omega
        simp only [if_neg hneg2]
        have hmax2 : max data.length data.length = data.length := by omega
        rw [hmax2, hall 0, hgoal]
        simp only [List.range_succ_eq_map, List.map_cons, List.map_map]
        have hm2 : min (pos + 8 * (n + 1)) data.length = data.length := by omega
        rw [hm2]
        rfl

/- ------------------------------------------------------------------ -/
/- Claim theorems -/
/- ------------------------------------------------------------------ -/

/-- Claim C4 (failing-input evaluation): the 44-byte blob `c4data` declares
version 0x10000, strictly below `earliestVersion = 0x20001`, yet
`CodeDirectory::parse` accepts it and returns a CodeDirectory value (the code
performs no version check at all, and `CDMachError` has no
`UnsupportedVersion` variant). -/
theorem C4_parse_accepts_version_below_earliest :
    CodeDirectory.parse ⟨c4data, 0⟩ = .ok (c4cd, ⟨c4data, 44⟩) ∧
    c4cd.version < earliestVersion := by decide

/-- Claim C7 (failing-input evaluation): for `cd7` with `pageSize = 0`,
`codeLimit = 2`, `nCodeSlots = 1`, the computed code hash is the digest of the
single byte `[5]` (the code uses `1 << 0 = 1` as the page size), not of the
whole region `[5, 6]` = image bytes `[0, codeLimit)` that the spec's
"one slot covering [0, codeLimit)" (and the field's own doc comment
"0 => infinite") would require. -/
theorem C7_pageSize_zero_hashes_one_byte_pages :
    CodeDirectory.computed_cd_hashes hid hid cd7 ⟨[5, 6], 0⟩ =
      .ok ([((0 : Int), hexEncode (hid [5]))], ⟨[5, 6], 1⟩) ∧
    hexEncode (hid [5]) ≠ hexEncode (hid [5, 6]) := by decide

/-- Claim C9 (counterexample): `hash_type_str` on `hashType = 3`
(SHA-256-truncated) hits the `unimplemented!()` arm and panics, refuting the
claim that it returns "SHA-256-truncated" without panicking. -/
theorem C9_hash_type_3_panics :
    CodeDirectory.hash_type_str (mkCDht 3) = .panicked := by decide

/-- Claim C9 (amended): `hash_type_str` is total only on hashType 1 and 2,
returning "SHA-1" and "SHA-256"; on hashType 3 it panics. -/
theorem C9_hash_type_str_amended (cd : CodeDirectory) :
    (cd.hashType = CS_HASHTYPE_SHA1 → cd.hash_type_str = .ok ("SHA-1")) ∧
    (cd.hashType = CS_HASHTYPE_SHA256 → cd.hash_type_str = .ok ("SHA-256")) ∧
    (cd.hashType = CS_HASHTYPE_SHA256_TRUNCATED → cd.hash_type_str = .panicked) := by
  refine ⟨fun h => ?_, fun h => ?_, fun h => ?_⟩ <;>
    simp [CodeDirectory.hash_type_str, h, CS_HASHTYPE_SHA1, CS_HASHTYPE_SHA256,
      CS_HASHTYPE_SHA256_TRUNCATED]

/-- witness for the amended C9 theorem at hash types 1, 2 and 3 -/
theorem C9_hash_type_str_amended_witness :
    ((mkCDht 1).hash_type_str = .ok ("SHA-1")) ∧
    ((mkCDht 2).hash_type_str = .ok ("SHA-256")) ∧
    ((mkCDht 3).hash_type_str = .panicked) :=
  ⟨(C9_hash_type_str_amended (mkCDht 1)).1 rfl,
   (C9_hash_type_str_amended (mkCDht 2)).2.1 rfl,
   (C9_hash_type_str_amended (mkCDht 3)).2.2 rfl⟩

/-- Claim C6 (counterexample): `cd6` has `codeLimit64 = 100` but
`computed_cd_hashes` truncates the single page at `codeLimit = 2`, digesting
`[1, 2]`; under the claim the limit would be `codeLimit64 = 100` and the page
window `[0, min(4, 100))` would digest `[1, 2, 3, 4]`. -/
theorem C6_codeLimit64_not_used_cex :
    CodeDirectory.computed_cd_hashes hid hid cd6 ⟨[1, 2, 3, 4], 0⟩ =
      .ok ([((0 : Int), hexEncode (hid [1, 2]))], ⟨[1, 2, 3, 4], 2⟩) ∧
    cd6.codeLimit64 = 100 ∧
    hexEncode (hid [1, 2]) ≠ hexEncode (hid [1, 2, 3, 4]) := by decide

/-- Claim C6 (amended): `computed_cd_hashes` ignores `codeLimit64` entirely —
the hashed region is always limited by the 32-bit `codeLimit`, whatever value
`codeLimit64` holds. -/
theorem C6_computed_hashes_ignore_codeLimit64 (sha1 sha256 : List Nat → List Nat)
    (cd : CodeDirectory) (c : Cursor) (v : Nat) :
    CodeDirectory.computed_cd_hashes sha1 sha256 { cd with codeLimit64 := v } c =
    CodeDirectory.computed_cd_hashes sha1 sha256 cd c := rfl

/-- Claim C8 (counterexample): a 12-byte buffer whose SuperBlob header declares
`length = 20` and `count = 2` (so `count * 8 + 12 = 28 > 20` and none of the 16
index-entry bytes is readable) parses successfully: the unreadable entries are
recorded as `none`, and no `Truncated` error is produced and no
`count * 8 + 12 ≤ length` check is made. -/
theorem C8_short_index_entries_not_an_error :
    SuperBlob.parse ⟨c8data, 0⟩ =
      .ok (⟨0xfade0cc0, 20, 2, [none, none]⟩, ⟨c8data, 12⟩) ∧
    ¬ (2 * 8 + 12 ≤ 20) := by decide

/-- Claim C8 (amended): `SuperBlob::parse` succeeds whenever the 12-byte header
is readable, whatever `count` and `length` declare — it performs no
`count * 8 + 12 ≤ length` check and produces no `Truncated` error for
unreadable index entries; entry `k` is present iff its eight bytes lie inside
the buffer, and is recorded as `none` otherwise. -/
theorem C8_superblob_parse_amended (c : Cursor) (h : c.pos + 12 ≤ c.data.length) :
    ∃ sb c', SuperBlob.parse c = .ok (sb, c') ∧
      sb.magic = beVal ((c.data.drop c.pos).take 4) ∧
      sb.length = beVal ((c.data.drop (c.pos + 4)).take 4) ∧
      sb.count = beVal ((c.data.drop (c.pos + 8)).take 4) ∧
      sb.index.length = sb.count ∧
      (∀ k, k < sb.count →
        ((sb.index.getD k none).isSome = true ↔ c.pos + 12 + 8 * (k + 1) ≤ c.data.length)) := by
  obtain ⟨data, pos⟩ := c
  simp only at h ⊢
  have h4 : pos + 4 ≤ data.length := by omega
  have h8 : pos + 4 + 4 ≤ data.length := by omega
  have h12 : pos + 4 + 4 + 4 ≤ data.length := by omega
  have hridx := readIndex_spec (beVal ((data.drop (pos + 8)).take 4)) ⟨data, pos + 12⟩
    (by simp; omega)
  simp only at hridx
  have hparse : SuperBlob.parse ⟨data, pos⟩ =
      .ok (⟨beVal ((data.drop pos).take 4), beVal ((data.drop (pos + 4)).take 4),
          beVal ((data.drop (pos + 8)).take 4),
          ((List.range (beVal ((data.drop (pos + 8)).take 4))).map fun (k : Nat) =>
            if pos + 12 + 8 * (k + 1) ≤ data.length then
              some ⟨beVal ((data.drop (pos + 12 + 8 * k)).take 4),
                    beVal ((data.drop (pos + 12 + 8 * k + 4)).take 4)⟩
            else none)⟩,
        ⟨data, min (pos + 12 + 8 * beVal ((data.drop (pos + 8)).take 4)) data.length⟩) := by
    unfold SuperBlob.parse
    simp only [readU32, tryReadU32, if_pos h4, if_pos h8, if_pos h12, outcome_bind_def,
      outcome_pure_def]
    rw [show pos + 4 + 4 = pos + 8 from by omega,
      show pos + 8 + 4 = pos + 12 from by omega, hridx]
  refine ⟨_, _, hparse, rfl, rfl, rfl, by simp, ?_⟩
  intro k hk
  simp only at hk
  rw [List.getD_eq_getElem?_getD, List.getElem?_map, List.getElem?_range (by simpa using hk)]
  by_cases hc : pos + 12 + 8 * (k + 1) ≤ data.length <;> simp [hc]

/-- witness for the amended C8 theorem: the 12-byte header `c8data` -/
theorem C8_amended_witness :
    ∃ sb c', SuperBlob.parse ⟨c8data, 0⟩ = .ok (sb, c') ∧
      sb.magic = beVal ((c8data.drop 0).take 4) ∧
      sb.length = beVal ((c8data.drop (0 + 4)).take 4) ∧
      sb.count = beVal ((c8data.drop (0 + 8)).take 4) ∧
      sb.index.length = sb.count ∧
      (∀ k, k < sb.count →
        ((sb.index.getD k none).isSome = true ↔ 0 + 12 + 8 * (k + 1) ≤ c8data.length)) :=
  C8_superblob_parse_amended ⟨c8data, 0⟩ (by decide)

/-- Claim C10: calling `read_string_to_nul` with the cursor at or past the end
of the buffer reads zero bytes, so the `sz - 1` slice bound underflows and the
call panics; consequently the identifier-extraction step whose computed
absolute offset `offset + bi.offset + identOffset` lies at or beyond the buffer
end propagates the panic (aborting the parse) instead of capturing a
recoverable error in the blob entry. -/
theorem C10_read_string_at_eof_panics (offset bOff idOff : Nat) (c : Cursor)
    (h : c.data.length ≤ offset + bOff + idOff) :
    read_string_to_nul ⟨c.data, offset + bOff + idOff⟩ = .panicked ∧
    identifier_entry offset bOff idOff c = .panicked := by
  have hdrop : c.data.drop (offset + bOff + idOff) = [] := List.drop_eq_nil_of_le h
  constructor
  · simp [read_string_to_nul, hdrop, takeToNul]
  · simp [identifier_entry, read_string_to_nul, hdrop, takeToNul]

/-- witness for C10: a two-byte buffer with the string offset computed as
`2 + 2 + 1 = 5`, past the end -/
theorem C10_witness :
    read_string_to_nul ⟨[1, 2], 2 + 2 + 1⟩ = .panicked ∧
    identifier_entry 2 2 1 ⟨[1, 2], 0⟩ = .panicked :=
  C10_read_string_at_eof_panics 2 2 1 ⟨[1, 2], 0⟩ (by decide)

/-- Claim C1: for a CodeDirectory whose `hashType` is SHA-1 (1) or SHA-256 (2),
`compute_cd_hash` on a cursor positioned at the start of the blob returns the
hex encoding of the selected algorithm's digest over exactly the first `length`
bytes of the blob (the bytes from the cursor position), advancing the cursor by
`length`.  The digest functions are the external `ring` primitives, taken as
parameters; the hypothesis `hlen` states that the buffer really contains
`length` bytes from the cursor position (otherwise `read_exact` fails). -/
theorem C1_compute_cd_hash_is_digest_of_length_bytes
    (sha1 sha256 : List Nat → List Nat) (cd : CodeDirectory) (c : Cursor)
    (hty : cd.hashType = CS_HASHTYPE_SHA1 ∨ cd.hashType = CS_HASHTYPE_SHA256)
    (hlen : c.pos + cd.length ≤ c.data.length) :
    CodeDirectory.compute_cd_hash sha1 sha256 cd c =
      .ok (some (hexEncode ((if cd.hashType = CS_HASHTYPE_SHA1 then sha1 else sha256)
        ((c.data.drop c.pos).take cd.length))), ⟨c.data, c.pos + cd.length⟩) := by
  rcases hty with h | h <;>
    simp [CodeDirectory.compute_cd_hash, readExact, selectDigest, hlen, h, outcome_bind_def,
      outcome_pure_def, CS_HASHTYPE_SHA1, CS_HASHTYPE_SHA256]

/-- Claim C5 (counterexample): `c5data` declares version 0x20400 (which is
`>= supportsCodeLimit64` and `>= supportsExecSegment`) and carries nonzero
bytes where `spare3`, `codeLimit64` and the exec-segment fields would be
encoded, yet the parser stops after `teamIDOffset` (byte 52) and leaves all of
those fields zero — it never reads them for any version. -/
theorem C5_parse_leaves_codeLimit64_zero_cex :
    CodeDirectory.parse ⟨c5data, 0⟩ = .ok (c5cd, ⟨c5data, 52⟩) ∧
    supportsCodeLimit64 ≤ c5cd.version ∧ supportsExecSegment ≤ c5cd.version ∧
    beVal ((c5data.drop 56).take 8) ≠ 0 ∧
    c5cd.spare3 = 0 ∧ c5cd.codeLimit64 = 0 ∧ c5cd.execSegBase = 0 := by decide

/-- Claim C5 (amended): whatever the declared version, `CodeDirectory::parse`
reads at most the 52 bytes through `teamIDOffset`; it never reads `spare3`,
`codeLimit64`, or the exec-segment fields, leaving them zero (so in particular
it never reads a field belonging to a higher version than the declared one). -/
theorem C5_parse_never_reads_past_teamIDOffset (c : Cursor) (cd : CodeDirectory) (c' : Cursor)
    (h : CodeDirectory.parse c = .ok (cd, c')) :
    cd.spare3 = 0 ∧ cd.codeLimit64 = 0 ∧ cd.execSegBase = 0 ∧ cd.execSegLimit = 0 ∧
    cd.execSegFlags = 0 ∧ c'.data = c.data ∧ c'.pos ≤ c.pos + 52 := by
  unfold CodeDirectory.parse at h
  obtain ⟨⟨v1, c1⟩, h1, h⟩ := bind_ok_inv h
  obtain ⟨⟨v2, c2⟩, h2, h⟩ := bind_ok_inv h
  obtain ⟨⟨v3, c3⟩, h3, h⟩ := bind_ok_inv h
  obtain ⟨⟨v4, c4⟩, h4, h⟩ := bind_ok_inv h
  obtain ⟨⟨v5, c5⟩, h5, h⟩ := bind_ok_inv h
  obtain ⟨⟨v6, c6⟩, h6, h⟩ := bind_ok_inv h
  obtain ⟨⟨v7, c7⟩, h7, h⟩ := bind_ok_inv h
  obtain ⟨⟨v8, c8⟩, h8, h⟩ := bind_ok_inv h
  obtain ⟨⟨v9, c9⟩, h9, h⟩ := bind_ok_inv h
  obtain ⟨⟨v10, c10⟩, h10, h⟩ := bind_ok_inv h
  obtain ⟨⟨v11, c11⟩, h11, h⟩ := bind_ok_inv h
  obtain ⟨⟨v12, c12⟩, h12, h⟩ := bind_ok_inv h
  obtain ⟨⟨v13, c13⟩, h13, h⟩ := bind_ok_inv h
  obtain ⟨⟨v14, c14⟩, h14, h⟩ := bind_ok_inv h
  obtain ⟨⟨v15, c15⟩, h15, h⟩ := bind_ok_inv h
  obtain ⟨⟨v16, c16⟩, h16, h⟩ := bind_ok_inv h
  simp only [outcome_pure_def] at h
  cases h
  obtain rfl := readU32_ok h1
  obtain rfl := readU32_ok h2
  obtain rfl := readU32_ok h3
  obtain rfl := readU32_ok h4
  obtain rfl := readU32_ok h5
  obtain rfl := readU32_ok h6
  obtain rfl := readU32_ok h7
  obtain rfl := readU32_ok h8
  obtain rfl := readU32_ok h9
  obtain rfl := readU8_ok h10
  obtain rfl := readU8_ok h11
  obtain rfl := readU8_ok h12
  obtain rfl := readU8_ok h13
  obtain rfl := readU32_ok h14
  have d15 := condRead_ok h15
  have d16 := condRead_ok h16
  simp only at d15 d16
  refine ⟨rfl, rfl, rfl, rfl, rfl, ?_, ?_⟩
  · rw [d16.1, d15.1]
  · have := d15.2.2
    have := d16.2.2
    omega

/-- witness for the amended C5 theorem: parsing the version-0x20400 blob
`c5data` succeeds and consumes 52 bytes -/
theorem C5_amended_witness :
    c5cd.spare3 = 0 ∧ c5cd.codeLimit64 = 0 ∧ c5cd.execSegBase = 0 ∧ c5cd.execSegLimit = 0 ∧
    c5cd.execSegFlags = 0 ∧ ((⟨c5data, 52⟩ : Cursor)).data = ((⟨c5data, 0⟩ : Cursor)).data ∧
    ((⟨c5data, 52⟩ : Cursor)).pos ≤ ((⟨c5data, 0⟩ : Cursor)).pos + 52 :=
  C5_parse_never_reads_past_teamIDOffset ⟨c5data, 0⟩ c5cd ⟨c5data, 52⟩ (by decide)

/-- Claim C3: the stored-hash table read by `CodeSignature::parse` starts at
`base + hashOffset - hashSize * nSpecialSlots` and pairs each logical index
`i = j - nSpecialSlots ∈ [-nSpecialSlots, nCodeSlots)` with the hex encoding of
the `hashSize` bytes at `base + hashOffset + i * hashSize` (slot `j` of the
packed array).  `hsub` rules out u32 underflow of the start position, the
`2^31` bounds make the `as i32` casts exact, and `hlen` states that the whole
table lies inside the buffer. -/
theorem C3_stored_hashes_slot_layout (cd : CodeDirectory) (base : Nat) (c : Cursor)
    (hsub : cd.hashSize * cd.nSpecialSlots ≤ base + cd.hashOffset)
    (hs31 : cd.nSpecialSlots < 2 ^ 31) (hn31 : cd.nCodeSlots < 2 ^ 31)
    (hlen : (base + cd.hashOffset - cd.hashSize * cd.nSpecialSlots)
        + (cd.nSpecialSlots + cd.nCodeSlots) * cd.hashSize ≤ c.data.length) :
    stored_hashes cd base c =
      .ok (((List.range (cd.nSpecialSlots + cd.nCodeSlots)).map fun (j : Nat) =>
          (-(cd.nSpecialSlots : Int) + (j : Int),
           hexEncode ((c.data.drop ((base + cd.hashOffset - cd.hashSize * cd.nSpecialSlots)
             + j * cd.hashSize)).take cd.hashSize))),
        ⟨c.data, (base + cd.hashOffset - cd.hashSize * cd.nSpecialSlots)
          + (cd.nSpecialSlots + cd.nCodeSlots) * cd.hashSize⟩) := by
  unfold stored_hashes
  rw [if_pos hsub]
  unfold CodeDirectory.cd_hashes
  have ht1 : toI32 cd.nSpecialSlots = (cd.nSpecialSlots : Int) := by
    unfold toI32; rw [if_pos hs31]
  have ht2 : toI32 cd.nCodeSlots = (cd.nCodeSlots : Int) := by
    unfold toI32; rw [if_pos hn31]
  rw [ht1, ht2]
  have hr : (cd.nCodeSlots : Int)
      = -(cd.nSpecialSlots : Int) + ((cd.nSpecialSlots + cd.nCodeSlots : Nat) : Int) := by
    push_cast; ring
  rw [hr]
  exact readSlots_range cd.hashSize (cd.nSpecialSlots + cd.nCodeSlots)
    (-(cd.nSpecialSlots : Int))
    ⟨c.data, base + cd.hashOffset - cd.hashSize * cd.nSpecialSlots⟩ hlen

/-- witness for C3: `nSpecialSlots = 5`-style geometry scaled down — hashOffset 2,
hashSize 1, two special slots and one code slot over a 5-byte buffer -/
theorem C3_witness :
    stored_hashes cd3w 0 ⟨[10, 11, 12, 13, 14], 0⟩ =
      .ok (((List.range (cd3w.nSpecialSlots + cd3w.nCodeSlots)).map fun (j : Nat) =>
          (-(cd3w.nSpecialSlots : Int) + (j : Int),
           hexEncode (((([10, 11, 12, 13, 14] : List Nat)).drop
             ((0 + cd3w.hashOffset - cd3w.hashSize * cd3w.nSpecialSlots)
               + j * cd3w.hashSize)).take cd3w.hashSize))),
        ⟨[10, 11, 12, 13, 14], (0 + cd3w.hashOffset - cd3w.hashSize * cd3w.nSpecialSlots)
          + (cd3w.nSpecialSlots + cd3w.nCodeSlots) * cd3w.hashSize⟩) :=
  C3_stored_hashes_slot_layout cd3w 0 ⟨[10, 11, 12, 13, 14], 0⟩
    (by decide) (by decide) (by decide) (by decide)

/-- Claim C2: for a CodeDirectory with `pageSize > 0` (and `< 64`, so the u64
shift is defined), `codeLimit64 = 0`, `nCodeSlots = ⌈codeLimit / 2^pageSize⌉ ≥ 1`
and a buffer containing `codeLimit` bytes, `computed_cd_hashes` returns one
digest per slot `k`, over the image window `[k·P, min((k+1)·P, codeLimit))`
with `P = 2^pageSize` — i.e. full pages and a short final page when
`codeLimit` is not a multiple of `P`.  The digest functions are the `ring`
primitives, taken as parameters and selected by `hashType`. -/
theorem C2_computed_hashes_cover_pages (sha1 sha256 : List Nat → List Nat)
    (cd : CodeDirectory) (c : Cursor)
    (hpz : 0 < cd.pageSize) (hp64 : cd.pageSize < 64) (h64 : cd.codeLimit64 = 0)
    (hty : cd.hashType = CS_HASHTYPE_SHA1 ∨ cd.hashType = CS_HASHTYPE_SHA256)
    (hn : cd.nCodeSlots = (cd.codeLimit + 2 ^ cd.pageSize - 1) / 2 ^ cd.pageSize)
    (hn1 : 1 ≤ cd.nCodeSlots) (hn31 : cd.nCodeSlots < 2 ^ 31)
    (hlen : cd.codeLimit ≤ c.data.length) :
    ∃ c', CodeDirectory.computed_cd_hashes sha1 sha256 cd c =
      .ok (((List.range cd.nCodeSlots).map fun (k : Nat) =>
        ((k : Int), hexEncode ((if cd.hashType = CS_HASHTYPE_SHA1 then sha1 else sha256)
          (((c.data.take cd.codeLimit).drop (k * 2 ^ cd.pageSize)).take (2 ^ cd.pageSize))))),
      c') := by
  have hsel : selectDigest sha1 sha256 cd.hashType
      = Outcome.ok (if cd.hashType = CS_HASHTYPE_SHA1 then sha1 else sha256) := by
    rcases hty with h | h <;> simp [selectDigest, h, CS_HASHTYPE_SHA1, CS_HASHTYPE_SHA256]
  obtain ⟨c', hc'⟩ := computedLoop_range sha1 sha256
    (if cd.hashType = CS_HASHTYPE_SHA1 then sha1 else sha256) cd.hashType cd.codeLimit
    (2 ^ cd.pageSize) hsel (by positivity) cd.nCodeSlots hn cd.nCodeSlots 0
    ⟨c.data, 0⟩ (by omega) (fun _ => by simp) hlen
  refine ⟨c', ?_⟩
  unfold CodeDirectory.computed_cd_hashes
  rw [if_neg (by omega : ¬ 64 ≤ cd.pageSize)]
  have ht2 : toI32 cd.nCodeSlots = (cd.nCodeSlots : Int) := by
    unfold toI32; rw [if_pos hn31]
  rw [ht2]
  have hidx : i32range 0 (cd.nCodeSlots : Int)
      = i32range (((0 : Nat) : Int)) ((((0 : Nat) : Int)) + (cd.nCodeSlots : Int)) := by
    norm_num
  rw [hidx, hc']
  congr 1
  congr 1
  apply List.map_congr_left
  intro j _
  simp

/-- witness for C2: a 3-byte image, `pageSize = 1` (pages of 2 bytes),
`codeLimit = 3`, two slots — a full page `[0,2)` and a short page `[2,3)` -/
theorem C2_witness :
    ∃ c', CodeDirectory.computed_cd_hashes hid hid cd2w ⟨[1, 2, 3], 0⟩ =
      .ok (((List.range cd2w.nCodeSlots).map fun (k : Nat) =>
        ((k : Int), hexEncode ((if cd2w.hashType = CS_HASHTYPE_SHA1 then hid else hid)
          (((([1, 2, 3] : List Nat).take cd2w.codeLimit).drop (k * 2 ^ cd2w.pageSize)).take
            (2 ^ cd2w.pageSize))))), c') :=
  C2_computed_hashes_cover_pages hid hid cd2w ⟨[1, 2, 3], 0⟩ (by decide) (by decide) rfl
    (Or.inl rfl) (by decide) (by decide) (by decide) (by decide)

/-- witness for C1: a 3-byte buffer, `length = 2`, SHA-1, identity digest -/
theorem C1_witness :
    CodeDirectory.compute_cd_hash hid hid cd1w ⟨[9, 9, 9], 0⟩ =
      .ok (some (hexEncode ((if cd1w.hashType = CS_HASHTYPE_SHA1 then hid else hid)
        ((([9, 9, 9] : List Nat).drop 0).take cd1w.length))), ⟨[9, 9, 9], 0 + 2⟩) :=
  C1_compute_cd_hash_is_digest_of_length_bytes hid hid cd1w ⟨[9, 9, 9], 0⟩
    (Or.inl rfl) (by decide)

end Codesig
